import Mathlib

/-!
Verification development for `calc_metrics.py` (WFRC Regional Metrics
Dashboard).  The two aggregation routines (`metricJobsBy`,
`metricEstimatesProjections`) and the merge step
(`mergeMetricDataframes`) are embedded shallowly: a dataframe becomes a
list of rows, numeric cell values become rationals, and the pandas
operations used by the script (groupby/sum, groupby/agg, outer merge,
`.str.title()`) are modelled as executable Lean functions.
-/

namespace CalcMetrics

/-! ### ASCII model of Python string title-casing

`geog_df["geoname"].str.title()` applies Python `str.title` to every
geography name.  For ASCII text (the geography names the script
handles), `str.title` upcases the first cased character of every
maximal run of cased characters and downcases the rest.  We model the
three character-level primitives on ASCII code points. -/

/-- ASCII model of Python "cased character": a letter `A`-`Z` or `a`-`z`. -/
def pyIsCased (c : Char) : Bool :=
  (65 ≤ c.toNat && c.toNat ≤ 90) || (97 ≤ c.toNat && c.toNat ≤ 122)

/-- ASCII model of Python `str.upper` on one character. -/
def pyToUpper (c : Char) : Char :=
  if 97 ≤ c.toNat && c.toNat ≤ 122 then Char.ofNat (c.toNat - 32) else c

/-- ASCII model of Python `str.lower` on one character. -/
def pyToLower (c : Char) : Char :=
  if 65 ≤ c.toNat && c.toNat ≤ 90 then Char.ofNat (c.toNat + 32) else c

/-- One pass of Python `str.title`: the boolean records whether the
previous character was cased (start-of-word detection). -/
def titleAux : Bool → List Char → List Char
  | _, [] => []
  | prev, c :: cs =>
    if pyIsCased c then
      (if prev then pyToLower c else pyToUpper c) :: titleAux true cs
    else
      c :: titleAux false cs

/-- Model of pandas `.str.title()` (Python `str.title`) on one string,
as used at `calc_metrics.py` lines 152, 184, 253 and 279. -/
def pyTitle (s : String) : String := ⟨titleAux false s.data⟩

/-! ### Data model

A source-table row for `metricJobsBy` carries the values of the
configured geography fields (`geogFields`, in order), the values of the
matched key fields (`key_flds`, in match order), and the values of the
weighted fields aligned with the key fields by the shared two-digit
year suffix (`input["weightedFieldPrefix"] + key_fld[-2:]`, lines
139-141 and 173-176 pair each key field with its weighted column).
Numeric cells are rationals. -/

structure SrcRow where
  geogs : List String
  keyVals : List ℚ
  wVals : List ℚ
deriving DecidableEq, Repr

/-- Value of the geography field at position `f` for a row
(`merge_df[fld_geog][ind]`). -/
def geogVal (r : SrcRow) (f : Nat) : String := r.geogs.getD f ""

/-! ### Grouped summation (pandas `groupby(...).sum()`)

`addVec` adds two value vectors componentwise, keeping the overhang of
the longer one; `sumVecs` folds it over a list of vectors.  `groupSum`
models `DataFrame.groupby(key).sum()` on a list of `(key, values)`
rows: one output row per distinct key, holding the componentwise sum
of the group's vectors.  (pandas orders groups by sorted key; the
claims under verification are insensitive to row order, so we keep
first-appearance order.) -/

def addVec : List ℚ → List ℚ → List ℚ
  | [], ys => ys
  | x :: xs, [] => x :: xs
  | x :: xs, y :: ys => (x + y) :: addVec xs ys

def sumVecs (l : List (List ℚ)) : List ℚ := l.foldr addVec []

def groupSum (l : List (String × List ℚ)) : List (String × List ℚ) :=
  ((l.map Prod.fst).dedup).map fun g =>
    (g, sumVecs ((l.filter fun p => p.1 == g).map Prod.snd))

/-! ### Ratio Aggregator (`metricJobsBy`), per-geography-field branch

Lines 121-155: for each geography field, the script sums the weighted
fields per raw geography value (`groupby(fld_geog).sum()`, line 128),
merges those sums back onto every row (line 131, producing the `_x`
row-own / `_y` group-sum column pair), computes one weighted value per
key field per row with an explicit zero-denominator guard (lines
142-146), then title-cases the geography name and groups the per-row
results by the title-cased name, summing (lines 151-153). -/

/-- Group sum of the weighted field aligned with key field `j`, over
the rows whose geography field `f` has raw value `g`
(`weighted_df = ato_df[...].groupby(fld_geog).sum()`, line 128; read
back as the `_y` column at line 142). -/
def groupWSum (rows : List SrcRow) (f : Nat) (g : String) (j : Nat) : ℚ :=
  ((rows.filter fun r => geogVal r f == g).map fun r => r.wVals.getD j 0).sum

/-- Per-row weighted values, one per key field (the `value_list` loop,
lines 135-147): `key * (own_weight / group_weight_sum)` when the group
sum is nonzero, else `0`. -/
def rowWeightedValues (rows : List SrcRow) (f nk : Nat) (r : SrcRow) : List ℚ :=
  (List.range nk).map fun j =>
    if groupWSum rows f (geogVal r f) j ≠ 0 then
      r.keyVals.getD j 0 * (r.wVals.getD j 0 / groupWSum rows f (geogVal r f) j)
    else 0

/-- Per-geography-field result of `metricJobsBy` (lines 121-155):
per-row weighted values labelled with the raw geography value, then
title-cased and grouped-summed by the title-cased name. -/
def jobsByField (rows : List SrcRow) (f nk : Nat) : List (String × List ℚ) :=
  groupSum (rows.map fun r => (pyTitle (geogVal r f), rowWeightedValues rows f nk r))

/-! ### Ratio Aggregator, geography-area branch

Lines 159-188: the table is filtered by the area's query, the weighted
fields are summed over the whole filtered area (line 166), and each
row's weighted value is computed as
`key * (own_weight / area_weight_sum)` (line 177) **without** a
zero-denominator guard.  Over pandas float64 cells a zero denominator
yields `±inf` (nonzero numerator) or `NaN` (zero numerator), so the
cells of this branch are modelled by `PCell`: a finite rational, a
signed infinity, or `NaN`.  The subsequent
`groupby("geoname").sum()` (line 186) follows pandas `skipna`
semantics: `NaN` cells are masked out before summing, an all-`NaN`
(or empty) group sums to `0.0`, and infinities propagate through the
remaining IEEE sum. -/

/-- A pandas float64 cell of the geography-area branch: finite value,
signed infinity, or `NaN`. -/
inductive PCell where
  | fin (q : ℚ)
  | pinf
  | ninf
  | nan
deriving DecidableEq, Repr

/-- IEEE float division as performed (unguarded) at line 177:
`x / s` is finite for `s ≠ 0`; for `s = 0` it is `+inf`, `-inf` or
`NaN` depending on the sign of `x`. -/
def pyDiv (x s : ℚ) : PCell :=
  if s ≠ 0 then .fin (x / s)
  else if 0 < x then .pinf
  else if x < 0 then .ninf
  else .nan

/-- IEEE float multiplication by a finite factor, as at line 177:
`key * (x / s)`.  A finite cell stays finite; an infinity keeps or
flips its sign with a nonzero factor and collapses to `NaN` with a
zero factor; `NaN` is absorbing. -/
def pyMul (k : ℚ) : PCell → PCell
  | .fin q => .fin (k * q)
  | .pinf => if 0 < k then .pinf else if k < 0 then .ninf else .nan
  | .ninf => if 0 < k then .ninf else if k < 0 then .pinf else .nan
  | .nan => .nan

/-- IEEE float addition on cells: `NaN` is absorbing, opposite
infinities give `NaN`, an infinity dominates finite summands. -/
def pAdd : PCell → PCell → PCell
  | .nan, _ => .nan
  | _, .nan => .nan
  | .fin a, .fin b => .fin (a + b)
  | .fin _, .pinf => .pinf
  | .fin _, .ninf => .ninf
  | .pinf, .fin _ => .pinf
  | .ninf, .fin _ => .ninf
  | .pinf, .pinf => .pinf
  | .ninf, .ninf => .ninf
  | .pinf, .ninf => .nan
  | .ninf, .pinf => .nan

/-- pandas `sum` with default `skipna=True` and `min_count=0` over one
column of one group (line 186): `NaN` cells are masked out, the rest
are summed left to right; an all-`NaN` or empty column sums to `0.0`. -/
def pSkipnaSum (l : List PCell) : PCell :=
  (l.filter fun c => c != .nan).foldl pAdd (.fin 0)

/-- Area-wide sum of the weighted field aligned with key field `j`
(`weighted_df = area_df[...].sum(numeric_only=True)`, line 166). -/
def areaWSum (area : List SrcRow) (j : Nat) : ℚ :=
  (area.map fun r => r.wVals.getD j 0).sum

/-- Per-row weighted values in the geography-area branch (lines
170-179): `key * (own_weight / area_weight_sum)` with the unguarded
division of line 177, as float cells. -/
def rowAreaValues (area : List SrcRow) (nk : Nat) (r : SrcRow) : List PCell :=
  (List.range nk).map fun j =>
    pyMul (r.keyVals.getD j 0) (pyDiv (r.wVals.getD j 0) (areaWSum area j))

/-- `groupby(...).sum()` over a frame of `nk` float columns (lines
184-186): one output row per distinct geoname, each column summed with
pandas `skipna` semantics. -/
def groupSumP (nk : Nat) (l : List (String × List PCell)) : List (String × List PCell) :=
  ((l.map Prod.fst).dedup).map fun g =>
    (g, (List.range nk).map fun j =>
      pSkipnaSum (((l.filter fun p => p.1 == g).map Prod.snd).map fun v => v.getD j (.fin 0)))

/-- Geography-area contribution of `metricJobsBy` (lines 159-188):
every surviving row is labelled with the configured area name, the
per-row values are computed against the area-wide weight sums, and the
rows are title-cased and grouped-summed (a single group, since the
label is constant), `NaN` cells being skipped by the sum. -/
def jobsByArea (rows : List SrcRow) (name : String) (pred : SrcRow → Bool) (nk : Nat) :
    List (String × List PCell) :=
  let area := rows.filter pred
  groupSumP nk (area.map fun r => (pyTitle name, rowAreaValues area nk r))

/-- Full `metricJobsBy` result (lines 117-194): the per-geography-field
tables (finite values, lifted into float cells) and the per-area tables
are concatenated with `pd.concat` (line 192), never re-aggregated
across branches. -/
def metricJobsBy (rows : List SrcRow) (nf nk : Nat)
    (areas : List (String × (SrcRow → Bool))) : List (String × List PCell) :=
  (((List.range nf).map fun f => (jobsByField rows f nk).map fun p => (p.1, p.2.map .fin)).flatten)
    ++ ((areas.map fun a => jobsByArea rows a.1 a.2 nk).flatten)

/-! ### Output column naming (lines 107-114)

`out_flds` starts with `"geoname"`; the column for the first key field
is `outFieldPattern + "CY"`, and the column for the key field at
position `i > 0` is `outFieldPattern + "FY{i}"`.  Only the number of
key fields matters, not their names. -/

def outFields (pat : String) (keyFlds : List String) : List String :=
  "geoname" :: (List.range keyFlds.length).map fun i =>
    if i > 0 then pat ++ "FY" ++ toString i else pat ++ "CY"

/-! ### Rollup Aggregator (`metricEstimatesProjections`), lines 197-289

A row carries the configured geography-field values, the values of the
key fields matched by `keyFieldPattern` (line 215), and the values of
every other (non-matched, non-geography) column.  The aggregation
operator is `"sum"` or `"mean"` per the configuration. -/

structure EPRow where
  geogs : List String
  keyVals : List ℚ
  otherVals : List ℚ
deriving DecidableEq, Repr

def epGeogVal (r : EPRow) (f : Nat) : String := r.geogs.getD f ""

inductive Agg where
  | sum
  | mean
deriving DecidableEq, Repr

/-- pandas aggregation of one column over one group: `"sum"` is the
plain sum, `"mean"` the unweighted arithmetic mean. -/
def aggApply : Agg → List ℚ → ℚ
  | .sum, l => l.sum
  | .mean, l => l.sum / (l.length : ℚ)

/-- Python `fld[-4:]`: the last four characters of a field name (the
whole string when shorter), used at line 223 to extract the assumed
4-digit year. -/
def pyLast4 (s : String) : String := ⟨s.data.drop (s.data.length - 4)⟩

/-- The `rename_dict` output names (lines 221-224): each matched key
field maps to `outFieldPattern + fld[-4:]`. -/
def epRenamed (pat : String) (keyFlds : List String) : List String :=
  keyFlds.map fun f => pat ++ pyLast4 f

/-- Per-geography-field branch of `metricEstimatesProjections` (lines
230-255): group by the raw geography value, aggregate every matched
key field with the configured operator (`groupby_dict`, lines
234-241), keep `"first"` of the group's `geoname` (equal to the raw
group key) and drop every other column (`drop_list`, lines 244-248),
rename, and title-case the output `geoname`. -/
def epField (agg : Agg) (nk : Nat) (rows : List EPRow) (f : Nat) : List (String × List ℚ) :=
  ((rows.map fun r => epGeogVal r f).dedup).map fun g =>
    (pyTitle g, (List.range nk).map fun j =>
      aggApply agg ((rows.filter fun r => epGeogVal r f == g).map fun r => r.keyVals.getD j 0))

/-- Geography-area branch of `metricEstimatesProjections` (lines
258-282): all surviving rows get the constant area name as `geoname`
(line 262), the table is filtered by the area query (line 264),
non-key non-geoname columns are dropped (lines 266-275), and the
single group is aggregated and title-cased. -/
def epArea (agg : Agg) (nk : Nat) (rows : List EPRow) (name : String) (pred : EPRow → Bool) :
    List (String × List ℚ) :=
  let area := rows.filter pred
  if area.isEmpty then []
  else [(pyTitle name, (List.range nk).map fun j =>
    aggApply agg (area.map fun r => r.keyVals.getD j 0))]

/-- Output column header of the Rollup Aggregator: `geoname` first
(lines 250-251), then the renamed key fields. -/
def epOutCols (pat : String) (keyFlds : List String) : List String :=
  "geoname" :: epRenamed pat keyFlds

/-- Full `metricEstimatesProjections` result (lines 226-289): the
per-geography-field tables and the per-area tables are concatenated
with `pd.concat` (line 287), never re-aggregated across branches. -/
def metricEP (agg : Agg) (nk : Nat) (rows : List EPRow) (nf : Nat)
    (areas : List (String × (EPRow → Bool))) : List (String × List ℚ) :=
  (((List.range nf).map fun f => epField agg nk rows f).flatten)
    ++ ((areas.map fun a => epArea agg nk rows a.1 a.2).flatten)

/-! ### Merge Step (`mergeMetricDataframes`, lines 70-77)

A Metric Result Table is modelled with an explicit column count
(needed to pad the missing side of an outer join with nulls) and rows
of `(geoname, values)`; a `none` cell is a pandas null. -/

structure MTable where
  ncols : Nat
  rows : List (String × List (Option ℚ))
deriving DecidableEq, Repr

/-- The value vectors of the rows of `t` whose geoname is `g`. -/
def rowMatches (t : MTable) (g : String) : List (List (Option ℚ)) :=
  (t.rows.filter fun p => p.1 == g).map Prod.snd

/-- pandas `output_df.merge(metric_df, how="outer", on="geoname")`
(line 73): every left row is joined with every right row sharing its
geoname, an unmatched left row is padded with nulls on the right, and
unmatched right rows are appended padded with nulls on the left. -/
def mergeOuter (a b : MTable) : MTable where
  ncols := a.ncols + b.ncols
  rows :=
    ((a.rows.map fun p =>
        if (rowMatches b p.1).isEmpty then
          [(p.1, p.2 ++ List.replicate b.ncols (none : Option ℚ))]
        else
          (rowMatches b p.1).map fun w => (p.1, p.2 ++ w)).flatten)
      ++ ((b.rows.filter fun p => (rowMatches a p.1).isEmpty).map
            fun p => (p.1, List.replicate a.ncols (none : Option ℚ) ++ p.2))

/-- pandas `DataFrame.empty` for our tables: no rows or no columns. -/
def pdEmpty (t : MTable) : Bool := t.rows.isEmpty || t.ncols == 0

/-- `mergeMetricDataframes` (lines 70-77): a non-empty accumulator is
outer-joined with the metric table; an empty accumulator is replaced
by it. -/
def mergeMetricDataframes (acc t : MTable) : MTable :=
  if pdEmpty acc then t else mergeOuter acc t

/-- The initial accumulator `output_df = pd.DataFrame()` (line 643). -/
def emptyTable : MTable := ⟨0, []⟩

/-- The main loop's accumulation (lines 643-805): each metric result
is merged into the running output dataframe in turn. -/
def mergeAll (ts : List MTable) : MTable := ts.foldl mergeMetricDataframes emptyTable

/-- Geography names present in a table, with multiplicity. -/
def geonames (t : MTable) : List String := t.rows.map Prod.fst

/-! ### Concrete tables used as witnesses and counterexamples

`exRows` is the spec's §8 example: two rows whose geography values
differ only in letter case, with `HH` weights and `JOBAUTO` key
values for two years. -/

def exRows : List SrcRow :=
  [⟨["ogden"], [50, 80], [100, 200]⟩, ⟨["OGDEN"], [20, 40], [50, 100]⟩]

/-- A one-row table whose weighted field is zero, so an area weight
sum of zero arises. -/
def zeroWRows : List SrcRow := [⟨["a"], [5], [0]⟩]

/-- Two rows in one group with `cost`-style values 100 and 300 (the
spec's §8 mean example). -/
def epMeanRows : List EPRow := [⟨["G"], [100], [7]⟩, ⟨["G"], [300], [8]⟩]

/-- Two rollup rows whose geography values differ only in case. -/
def epCaseRows : List EPRow := [⟨["ogden"], [100], []⟩, ⟨["OGDEN"], [50], []⟩]

/-- One row whose two geography fields carry case-variants of the same
name. -/
def dupRows : List SrcRow := [⟨["ogden", "OGDEN"], [5], [10]⟩]

/-- One rollup row whose geography value also reappears (case-varied)
as a configured area name. -/
def epDupRows : List EPRow := [⟨["Ogden"], [7], []⟩]

/-- Metric result over geographies {X, Y} (spec §8 merge example). -/
def tXY : MTable := ⟨1, [("X", [some 1]), ("Y", [some 2])]⟩

/-- Metric result over geographies {Y, Z} (spec §8 merge example). -/
def tYZ : MTable := ⟨1, [("Y", [some 3]), ("Z", [some 4])]⟩

/-! ### Theorems -/

theorem toNat_ofNat_valid (n : Nat) (h : n < 0xd800) : (Char.ofNat n).toNat = n := by
  simp [Char.ofNat, Nat.isValidChar, h, Char.ofNatAux, Char.toNat, UInt32.toNat]

theorem pyIsCased_toUpper (c : Char) : pyIsCased (pyToUpper c) = pyIsCased c := by
  unfold pyToUpper
  by_cases h : (97 ≤ c.toNat && c.toNat ≤ 122) = true
  · rw [if_pos h]
    simp only [Bool.and_eq_true, decide_eq_true_eq] at h
    obtain ⟨h1, h2⟩ := h
    have hv : c.toNat - 32 < 0xd800 := by omega
    have hL : pyIsCased (Char.ofNat (c.toNat - 32)) = true := by
      simp [pyIsCased, toNat_ofNat_valid _ hv]
      omega
    have hR : pyIsCased c = true := by
      simp [pyIsCased]
      omega
    rw [hL, hR]
  · rw [if_neg h]

theorem pyToUpper_toUpper (c : Char) : pyToUpper (pyToUpper c) = pyToUpper c := by
  unfold pyToUpper
  by_cases h : (97 ≤ c.toNat && c.toNat ≤ 122) = true
  · rw [if_pos h]
    simp only [Bool.and_eq_true, decide_eq_true_eq] at h
    obtain ⟨h1, h2⟩ := h
    have hv : c.toNat - 32 < 0xd800 := by omega
    rw [if_neg]
    simp [toNat_ofNat_valid _ hv]
    omega
  · rw [if_neg h, if_neg h]

theorem pyIsCased_toLower (c : Char) : pyIsCased (pyToLower c) = pyIsCased c := by
  unfold pyToLower
  by_cases h : (65 ≤ c.toNat && c.toNat ≤ 90) = true
  · rw [if_pos h]
    simp only [Bool.and_eq_true, decide_eq_true_eq] at h
    obtain ⟨h1, h2⟩ := h
    have hv : c.toNat + 32 < 0xd800 := by omega
    have hL : pyIsCased (Char.ofNat (c.toNat + 32)) = true := by
      simp [pyIsCased, toNat_ofNat_valid _ hv]
      omega
    have hR : pyIsCased c = true := by
      simp [pyIsCased]
      omega
    rw [hL, hR]
  · rw [if_neg h]

theorem pyToLower_toLower (c : Char) : pyToLower (pyToLower c) = pyToLower c := by
  unfold pyToLower
  by_cases h : (65 ≤ c.toNat && c.toNat ≤ 90) = true
  · rw [if_pos h]
    simp only [Bool.and_eq_true, decide_eq_true_eq] at h
    obtain ⟨h1, h2⟩ := h
    have hv : c.toNat + 32 < 0xd800 := by omega
    rw [if_neg]
    simp [toNat_ofNat_valid _ hv]
    omega
  · rw [if_neg h, if_neg h]

theorem titleAux_idem (cs : List Char) : ∀ p : Bool, titleAux p (titleAux p cs) = titleAux p cs := by
  induction cs with
  | nil => intro p; rfl
  | cons c cs ih =>
    intro p
    by_cases h : pyIsCased c = true
    · cases p with
      | false =>
        simp only [titleAux, h, if_pos, Bool.false_eq_true, if_false,
          pyIsCased_toUpper, pyToUpper_toUpper, ih true]
      | true =>
        simp only [titleAux, h, if_pos, if_true,
          pyIsCased_toLower, pyToLower_toLower, ih true]
    · simp only [titleAux, h, if_neg, Bool.false_eq_true, if_false, ih false]

/-! ### Helper lemmas -/

theorem addVec_getD (xs ys : List ℚ) (j : Nat) :
    (addVec xs ys).getD j 0 = xs.getD j 0 + ys.getD j 0 := by
  induction xs generalizing ys j with
  | nil => simp [addVec]
  | cons x xs ih =>
    cases ys with
    | nil => simp [addVec]
    | cons y ys =>
      cases j with
      | zero => simp [addVec]
      | succ j => simpa [addVec] using ih ys j

theorem sumVecs_getD (l : List (List ℚ)) (j : Nat) :
    (sumVecs l).getD j 0 = (l.map fun v => v.getD j 0).sum := by
  induction l with
  | nil => simp [sumVecs]
  | cons v l ih =>
    have hc : sumVecs (v :: l) = addVec v (sumVecs l) := rfl
    rw [hc, addVec_getD, ih, List.map_cons, List.sum_cons]

theorem groupSum_names (l : List (String × List ℚ)) :
    (groupSum l).map Prod.fst = (l.map Prod.fst).dedup := by
  simp [groupSum, List.map_map, Function.comp_def]

theorem groupSum_mem {l : List (String × List ℚ)} {g : String} {v : List ℚ}
    (h : (g, v) ∈ groupSum l) :
    v = sumVecs ((l.filter fun p => p.1 == g).map Prod.snd) := by
  simp only [groupSum, List.mem_map] at h
  obtain ⟨g', _, hg⟩ := h
  obtain ⟨h1, h2⟩ := Prod.mk.injEq .. ▸ hg
  subst h1
  exact h2.symm

theorem rowMatches_nil_iff (t : MTable) (g : String) :
    (rowMatches t g).isEmpty = true ↔ g ∉ geonames t := by
  rw [rowMatches, geonames, List.isEmpty_iff, List.map_eq_nil_iff, List.filter_eq_nil_iff]
  constructor
  · intro h hg
    obtain ⟨p, hp, rfl⟩ := List.mem_map.mp hg
    exact (h p hp) (by simp)
  · intro h p hp hb
    exact h (List.mem_map.mpr ⟨p, hp, by simpa using hb⟩)

theorem geonames_mergeOuter_left {a : MTable} (b : MTable) {g : String}
    (h : g ∈ geonames a) : g ∈ geonames (mergeOuter a b) := by
  obtain ⟨p, hp, rfl⟩ := List.mem_map.mp h
  rw [geonames, mergeOuter]
  rw [List.map_append, List.mem_append]
  left
  by_cases he : (rowMatches b p.1).isEmpty = true
  · exact List.mem_map.mpr ⟨(p.1, p.2 ++ List.replicate b.ncols none),
      List.mem_flatten.mpr ⟨_, List.mem_map.mpr ⟨p, hp, rfl⟩,
        by rw [if_pos he]; exact List.mem_singleton.mpr rfl⟩, rfl⟩
  · obtain ⟨w, hw⟩ := List.exists_mem_of_ne_nil (rowMatches b p.1)
      (by simpa [List.isEmpty_iff] using he)
    exact List.mem_map.mpr ⟨(p.1, p.2 ++ w),
      List.mem_flatten.mpr ⟨_, List.mem_map.mpr ⟨p, hp, rfl⟩,
        by rw [if_neg he]; exact List.mem_map.mpr ⟨w, hw, rfl⟩⟩, rfl⟩

theorem geonames_mergeOuter_right (a : MTable) {b : MTable} {g : String}
    (h : g ∈ geonames b) : g ∈ geonames (mergeOuter a b) := by
  by_cases ha : g ∈ geonames a
  · exact geonames_mergeOuter_left b ha
  · obtain ⟨p, hp, rfl⟩ := List.mem_map.mp h
    rw [geonames, mergeOuter]
    rw [List.map_append, List.mem_append]
    right
    refine List.mem_map.mpr ⟨(p.1, List.replicate a.ncols none ++ p.2),
      List.mem_map.mpr ⟨p, List.mem_filter.mpr ⟨hp, ?_⟩, rfl⟩, rfl⟩
    simpa using (rowMatches_nil_iff a p.1).mpr ha

theorem geonames_mergeOuter (a b : MTable) (g : String) :
    g ∈ geonames (mergeOuter a b) ↔ g ∈ geonames a ∨ g ∈ geonames b := by
  constructor
  · intro h
    rw [geonames, mergeOuter, List.map_append, List.mem_append] at h
    rcases h with h | h
    · obtain ⟨row, hrow, rfl⟩ := List.mem_map.mp h
      obtain ⟨sub, hsub, hmem⟩ := List.mem_flatten.mp hrow
      obtain ⟨p, hp, rfl⟩ := List.mem_map.mp hsub
      left
      by_cases he : (rowMatches b p.1).isEmpty = true
      · rw [if_pos he] at hmem
        rw [List.mem_singleton.mp hmem]
        exact List.mem_map.mpr ⟨p, hp, rfl⟩
      · rw [if_neg he] at hmem
        obtain ⟨w, _, rfl⟩ := List.mem_map.mp hmem
        exact List.mem_map.mpr ⟨p, hp, rfl⟩
    · obtain ⟨row, hrow, rfl⟩ := List.mem_map.mp h
      obtain ⟨q, hq, rfl⟩ := List.mem_map.mp hrow
      right
      exact List.mem_map.mpr ⟨q, (List.mem_filter.mp hq).1, rfl⟩
  · rintro (h | h)
    · exact geonames_mergeOuter_left b h
    · exact geonames_mergeOuter_right a h

theorem mergeAll_names_aux (ts : List MTable) (acc : MTable)
    (hts : ∀ t ∈ ts, 0 < t.ncols) (hacc : acc.ncols = 0 → acc.rows = []) (g : String) :
    g ∈ geonames (ts.foldl mergeMetricDataframes acc) ↔
      g ∈ geonames acc ∨ ∃ t ∈ ts, g ∈ geonames t := by
  induction ts generalizing acc with
  | nil => simp
  | cons t ts ih =>
    rw [List.foldl_cons]
    have htn : 0 < t.ncols := hts t (List.mem_cons_self t ts)
    have hts' : ∀ u ∈ ts, 0 < u.ncols := fun u hu => hts u (List.mem_cons_of_mem t hu)
    by_cases he : pdEmpty acc = true
    · have hstep : mergeMetricDataframes acc t = t := by
        rw [mergeMetricDataframes, if_pos he]
      have hnames : geonames acc = [] := by
        have : acc.rows = [] ∨ acc.ncols = 0 := by
          simpa [pdEmpty, List.isEmpty_iff] using he
        rcases this with h | h
        · simp [geonames, h]
        · simp [geonames, hacc h]
      rw [hstep, ih t hts' (fun h0 => absurd h0 (Nat.pos_iff_ne_zero.mp htn)), hnames]
      simp
    · have hstep : mergeMetricDataframes acc t = mergeOuter acc t := by
        rw [mergeMetricDataframes, if_neg he]
      have hinv : (mergeOuter acc t).ncols = 0 → (mergeOuter acc t).rows = [] := by
        intro h0
        exact absurd (by simpa [mergeOuter] using h0 : acc.ncols + t.ncols = 0)
          (by omega)
      rw [hstep, ih (mergeOuter acc t) hts' hinv, geonames_mergeOuter]
      simp only [List.mem_cons]
      constructor
      · rintro ((h | h) | ⟨u, hu, hg⟩)
        · exact Or.inl h
        · exact Or.inr ⟨t, Or.inl rfl, h⟩
        · exact Or.inr ⟨u, Or.inr hu, hg⟩
      · rintro (h | ⟨u, (rfl | hu), hg⟩)
        · exact Or.inl (Or.inl h)
        · exact Or.inl (Or.inr hg)
        · exact Or.inr ⟨u, hu, hg⟩

theorem mergeAll_names (ts : List MTable) (hts : ∀ t ∈ ts, 0 < t.ncols) (g : String) :
    g ∈ geonames (mergeAll ts) ↔ ∃ t ∈ ts, g ∈ geonames t := by
  rw [mergeAll, mergeAll_names_aux ts emptyTable hts (fun _ => rfl)]
  simp [geonames, emptyTable]

theorem rangeMap_getD {α : Type} (nk j : Nat) (hj : j < nk) (f : Nat → α) (d : α) :
    (((List.range nk).map f).getD j d) = f j := by
  rw [List.getD_eq_getElem?_getD, List.getElem?_map, List.getElem?_range hj]
  rfl

/-! ### Claims -/

/-- C9: geography name normalization is idempotent: title-casing an
already title-cased string returns it unchanged,
`pyTitle (pyTitle s) = pyTitle s` for every string `s`. -/
theorem claim_C9 : ∀ s : String, pyTitle (pyTitle s) = pyTitle s := by
  intro s
  exact congrArg String.mk (titleAux_idem s.data false)

/-- C6: in the Ratio Aggregator, the output value columns map the
first key field to `outFieldPattern ++ "CY"` and the key field at
position `i > 0` to `outFieldPattern ++ "FY" ++ i` (its 1-based index
among the subsequent key fields), independently of the field names
(only their number matters). -/
theorem claim_C6 : ∀ (pat : String) (keyFlds : List String),
    (keyFlds ≠ [] → (outFields pat keyFlds).getD 1 "" = pat ++ "CY") ∧
    (∀ i, 0 < i → i < keyFlds.length →
      (outFields pat keyFlds).getD (i + 1) "" = pat ++ "FY" ++ toString i) ∧
    (∀ keyFlds' : List String, keyFlds'.length = keyFlds.length →
      outFields pat keyFlds' = outFields pat keyFlds) := by
  intro pat keyFlds
  refine ⟨?_, ?_, ?_⟩
  · intro hne
    have hlen : 0 < keyFlds.length := List.length_pos.mpr hne
    show (((List.range keyFlds.length).map fun i =>
      if i > 0 then pat ++ "FY" ++ toString i else pat ++ "CY").getD 0 "") = pat ++ "CY"
    rw [rangeMap_getD _ 0 hlen]
    simp
  · intro i hi hilen
    show (((List.range keyFlds.length).map fun i =>
      if i > 0 then pat ++ "FY" ++ toString i else pat ++ "CY").getD i "") = pat ++ "FY" ++ toString i
    rw [rangeMap_getD _ i hilen]
    simp [hi]
  · intro keyFlds' hlen
    unfold outFields
    rw [hlen]

/-- C6 witness: with two key fields, column 1 is `pat ++ "CY"` and
column 2 is `pat ++ "FY1"`. -/
theorem claim_C6_witness :
    (outFields "weighted_ato_jobauto_" ["JOBAUTO_21", "JOBAUTO_32"]).getD 1 "" =
        "weighted_ato_jobauto_" ++ "CY" ∧
    (outFields "weighted_ato_jobauto_" ["JOBAUTO_21", "JOBAUTO_32"]).getD 2 "" =
        "weighted_ato_jobauto_" ++ "FY" ++ toString 1 :=
  ⟨(claim_C6 "weighted_ato_jobauto_" ["JOBAUTO_21", "JOBAUTO_32"]).1 (by decide),
   (claim_C6 "weighted_ato_jobauto_" ["JOBAUTO_21", "JOBAUTO_32"]).2.1 1 (by decide) (by decide)⟩

/-- C8: in both aggregators, a geography area whose filter matches
zero rows contributes no row to the result and raises no error (the
area functions are total and return the empty table). -/
theorem claim_C8 : ∀ (rows : List SrcRow) (eprows : List EPRow) (name : String)
    (pred : SrcRow → Bool) (epPred : EPRow → Bool) (nk : Nat) (agg : Agg),
    rows.filter pred = [] → eprows.filter epPred = [] →
    jobsByArea rows name pred nk = [] ∧ epArea agg nk eprows name epPred = [] := by
  intro rows eprows name pred epPred nk agg hf hef
  constructor
  · rw [jobsByArea]
    simp only [hf]
    rfl
  · rw [epArea]
    simp only [hef]
    rfl

/-- C8 witness: a never-matching filter on nonempty tables yields
empty contributions in both aggregators. -/
theorem claim_C8_witness :
    jobsByArea exRows "Wasatch Front Region" (fun _ => false) 2 = [] ∧
    epArea .sum 1 epMeanRows "Wasatch Front Region" (fun _ => false) = [] :=
  claim_C8 exRows epMeanRows "Wasatch Front Region" (fun _ => false) (fun _ => false) 2 .sum
    (by simp [exRows]) (by simp [epMeanRows])

/-- C10: the per-geography-field and per-area result tables are
concatenated, never re-aggregated across branches: a title-cased name
arising under two geography fields (Ratio Aggregator), or under a
geography field and a configured area name (Rollup Aggregator), yields
two rows with the same geoname in the returned table. -/
theorem claim_C10 :
    (metricJobsBy dupRows 2 1 []).map Prod.fst = ["Ogden", "Ogden"] ∧
    (metricEP .sum 1 epDupRows 1 [("ogden", fun _ => true)]).map Prod.fst =
      ["Ogden", "Ogden"] := by
  constructor
  · decide
  · decide

theorem exRows_gw_lower : groupWSum exRows 0 "ogden" 0 = 100 := by
  simp +decide only [groupWSum, exRows, geogVal, List.filter, List.map, List.sum, List.foldr,
    List.getD, List.get?, Option.getD]
  norm_num

theorem exRows_gw_upper : groupWSum exRows 0 "OGDEN" 0 = 50 := by
  simp +decide only [groupWSum, exRows, geogVal, List.filter, List.map, List.sum, List.foldr,
    List.getD, List.get?, Option.getD]
  norm_num

theorem exRows_eval : jobsByField exRows 0 2 = [("Ogden", [70, 120])] := by
  have h1 : pyTitle "ogden" = "Ogden" := by decide
  have h2 : pyTitle "OGDEN" = "Ogden" := by decide
  simp +decide only [jobsByField, exRows, groupSum, rowWeightedValues, groupWSum, geogVal,
    sumVecs, addVec, List.dedup, List.filter, h1, h2, List.map, List.sum, List.foldr,
    List.getD, List.get?, Option.getD, Prod.fst, Prod.snd]
  norm_num

theorem pyMul_ne_fin (k : ℚ) (c : PCell) (hc : ∀ p : ℚ, c ≠ .fin p) (q : ℚ) :
    pyMul k c ≠ .fin q := by
  cases c with
  | fin p => exact absurd rfl (hc p)
  | pinf =>
    unfold pyMul
    split_ifs <;> simp
  | ninf =>
    unfold pyMul
    split_ifs <;> simp
  | nan => simp [pyMul]

theorem pyDiv_zero_ne_fin (x q : ℚ) : pyDiv x 0 ≠ .fin q := by
  unfold pyDiv
  rw [if_neg (by simp)]
  split_ifs <;> simp

theorem zeroW_area_eval :
    jobsByArea zeroWRows "reg" (fun _ => true) 1 = [("Reg", [PCell.fin 0])] := by
  have h1 : pyTitle "reg" = "Reg" := by decide
  simp +decide only [jobsByArea, zeroWRows, groupSumP, rowAreaValues, areaWSum, pSkipnaSum,
    pAdd, pyDiv, pyMul, List.dedup, List.filter, h1, List.map, List.sum, List.foldr,
    List.foldl, List.getD, List.get?, Option.getD, List.range, List.range.loop]
  norm_num

/-- C1 (amended): in the per-geography-field branch a zero group
weight sum yields `0` and a nonzero one yields
`key * (own_weight / group_weight_sum)`.  In the geography-area branch
the division at line 177 is unguarded: when the filtered area's weight
sum is zero the per-row weighted value is non-finite (`NaN` or `±inf`,
never a finite float), not zero, and no error is raised; when the sum
is nonzero it equals `key * (own_weight / area_weight_sum)`.  The
branch's subsequent `groupby().sum()` skips `NaN`, so an all-`NaN`
group (e.g. the zero-weight one-row area) emits `0.0` in the output
row. -/
theorem claim_C1 : ∀ (rows area : List SrcRow) (f nk : Nat) (r : SrcRow) (j : Nat), j < nk →
    ((groupWSum rows f (geogVal r f) j = 0 → (rowWeightedValues rows f nk r).getD j 0 = 0) ∧
     (groupWSum rows f (geogVal r f) j ≠ 0 →
       (rowWeightedValues rows f nk r).getD j 0 =
         r.keyVals.getD j 0 * (r.wVals.getD j 0 / groupWSum rows f (geogVal r f) j))) ∧
    ((areaWSum area j = 0 → ∀ q : ℚ, (rowAreaValues area nk r).getD j .nan ≠ .fin q) ∧
     (areaWSum area j ≠ 0 →
       (rowAreaValues area nk r).getD j .nan =
         .fin (r.keyVals.getD j 0 * (r.wVals.getD j 0 / areaWSum area j)))) ∧
    jobsByArea zeroWRows "reg" (fun _ => true) 1 = [("Reg", [PCell.fin 0])] := by
  intro rows area f nk r j hj
  refine ⟨⟨?_, ?_⟩, ⟨?_, ?_⟩, zeroW_area_eval⟩
  · intro h
    rw [rowWeightedValues, rangeMap_getD _ j hj]
    simp [h]
  · intro h
    rw [rowWeightedValues, rangeMap_getD _ j hj]
    simp [h]
  · intro h q
    rw [rowAreaValues, rangeMap_getD _ j hj, h]
    exact pyMul_ne_fin _ _ (pyDiv_zero_ne_fin _) q
  · intro h
    rw [rowAreaValues, rangeMap_getD _ j hj, pyDiv, if_pos h, pyMul]

/-- C1 counterexample: in the one-row geography area with key value 5
and weight 0, the area weight sum is zero and the per-row weighted
value of line 177 is `5 * (0 / 0) = NaN`, not the zero the claim
asserts. -/
theorem claim_C1_counterexample :
    rowAreaValues zeroWRows 1 ⟨["a"], [5], [0]⟩ = [PCell.nan] ∧
    PCell.nan ≠ PCell.fin 0 := by
  constructor
  · simp +decide only [rowAreaValues, zeroWRows, areaWSum, pyDiv, pyMul, List.map, List.sum,
      List.foldr, List.getD, List.get?, Option.getD, List.range, List.range.loop]
    norm_num
  · simp

/-- C1 witness: on the example table, the first row's current-year
weighted value equals `50 * (100 / group_weight_sum)`. -/
theorem claim_C1_witness :
    (rowWeightedValues exRows 0 2 ⟨["ogden"], [50, 80], [100, 200]⟩).getD 0 0 =
      (⟨["ogden"], [50, 80], [100, 200]⟩ : SrcRow).keyVals.getD 0 0 *
        ((⟨["ogden"], [50, 80], [100, 200]⟩ : SrcRow).wVals.getD 0 0 /
          groupWSum exRows 0 (geogVal ⟨["ogden"], [50, 80], [100, 200]⟩ 0) 0) := by
  have hne : groupWSum exRows 0 (geogVal ⟨["ogden"], [50, 80], [100, 200]⟩ 0) 0 ≠ 0 := by
    have hg : geogVal ⟨["ogden"], [50, 80], [100, 200]⟩ 0 = "ogden" := rfl
    rw [hg, exRows_gw_lower]
    norm_num
  exact ((claim_C1 exRows exRows 0 2 ⟨["ogden"], [50, 80], [100, 200]⟩ 0 (by decide)).1).2 hne

/-- C2: in the per-geography-field branch of the Ratio Aggregator, the
declared output value of each geography-name group is the sum, over
the group's rows, of the per-row weighted values (zero when the raw
group's weight sum is zero, else `key * (own_weight / group sum)`):
per-row values are computed first, then grouped by title-cased
geography name and summed. -/
theorem claim_C2 : ∀ (rows : List SrcRow) (f nk : Nat) (g : String) (v : List ℚ),
    (g, v) ∈ jobsByField rows f nk → ∀ j, j < nk →
    v.getD j 0 = ((rows.filter fun r => pyTitle (geogVal r f) == g).map fun r =>
        if groupWSum rows f (geogVal r f) j = 0 then 0
        else r.keyVals.getD j 0 * (r.wVals.getD j 0 / groupWSum rows f (geogVal r f) j)).sum := by
  intro rows f nk g v hv j hj
  rw [jobsByField] at hv
  rw [groupSum_mem hv, sumVecs_getD, List.map_map, List.filter_map, List.map_map]
  simp only [Function.comp_def]
  refine congrArg List.sum (List.map_congr_left ?_)
  intro r _
  rw [rowWeightedValues, rangeMap_getD _ j hj]
  by_cases h : groupWSum rows f (geogVal r f) j = 0
  · simp [h]
  · simp [h]

/-- C2 witness: the example table's single output row `("Ogden", [70,
120])` has its current-year value equal to the group's summed per-row
weighted values. -/
theorem claim_C2_witness :
    ([(70 : ℚ), 120].getD 0 0) =
      ((exRows.filter fun r => pyTitle (geogVal r 0) == "Ogden").map fun r =>
        if groupWSum exRows 0 (geogVal r 0) 0 = 0 then 0
        else r.keyVals.getD 0 0 * (r.wVals.getD 0 0 / groupWSum exRows 0 (geogVal r 0) 0)).sum :=
  claim_C2 exRows 0 2 "Ogden" [70, 120]
    (by rw [exRows_eval]; exact List.mem_singleton.mpr rfl) 0 (by decide)

/-- C3 (amended): the Ratio Aggregator re-groups by the title-cased
geography name, so case-variant source values merge into a single
output row, but the group weight sums are computed on the raw
(case-sensitive) values: on the spec's example the raw groups have
weight sums 100 and 50 (not 150) and the single "Ogden" row's CY value
is 70 (not 40); the Rollup Aggregator groups by raw value and only
title-cases the displayed name, so case variants stay separate rows
sharing a geoname. -/
theorem claim_C3 :
    (∀ (rows : List SrcRow) (f nk : Nat),
      (jobsByField rows f nk).map Prod.fst = ((rows.map fun r => pyTitle (geogVal r f)).dedup)) ∧
    jobsByField exRows 0 2 = [("Ogden", [70, 120])] ∧
    groupWSum exRows 0 "ogden" 0 = 100 ∧ groupWSum exRows 0 "OGDEN" 0 = 50 ∧
    (epField .sum 1 epCaseRows 0).map Prod.fst = ["Ogden", "Ogden"] := by
  refine ⟨?_, exRows_eval, exRows_gw_lower, exRows_gw_upper, by decide⟩
  intro rows f nk
  rw [jobsByField, groupSum_names, List.map_map]
  rfl

/-- C3 counterexample: on the spec's own example input the code's
group weight sums are 100 and 50 (the claim says 150 and 300) and the
single title-cased "Ogden" row's CY value is 70 (the claim says 40). -/
theorem claim_C3_counterexample :
    jobsByField exRows 0 2 = [("Ogden", [70, 120])] ∧
    groupWSum exRows 0 "ogden" 0 = 100 ∧ groupWSum exRows 0 "OGDEN" 0 = 50 ∧
    ((100 : ℚ) ≠ 150) ∧ ((70 : ℚ) ≠ 40) := by
  refine ⟨exRows_eval, exRows_gw_lower, exRows_gw_upper, by norm_num, by norm_num⟩

theorem mergeOuter_rows (a b : MTable) :
    (mergeOuter a b).rows =
      ((a.rows.map fun p =>
          if (rowMatches b p.1).isEmpty then
            [(p.1, p.2 ++ List.replicate b.ncols (none : Option ℚ))]
          else
            (rowMatches b p.1).map fun w => (p.1, p.2 ++ w)).flatten)
        ++ ((b.rows.filter fun p => (rowMatches a p.1).isEmpty).map
              fun p => (p.1, List.replicate a.ncols (none : Option ℚ) ++ p.2)) := rfl

/-- C4: the Rollup Aggregator outputs `geoname` plus each matched key
field renamed to `outFieldPattern ++ fld[-4:]`, each group row holds
the configured aggregate (sum, or unweighted arithmetic mean, e.g.
mean of [100, 300] is 200) of the group's key-field values, and no
non-matched non-geography column survives (the output columns are
exactly `epOutCols`). -/
theorem claim_C4 : ∀ (pat : String) (keyFlds : List String) (agg : Agg)
    (rows : List EPRow) (f : Nat),
    (epOutCols pat keyFlds = "geoname" :: (keyFlds.map fun fl => pat ++ pyLast4 fl)) ∧
    ((epField agg keyFlds.length rows f).map Prod.fst =
      ((rows.map fun r => epGeogVal r f).dedup).map pyTitle) ∧
    (∀ graw, graw ∈ (rows.map fun r => epGeogVal r f).dedup →
      (pyTitle graw, (List.range keyFlds.length).map fun j =>
          aggApply agg ((rows.filter fun r => epGeogVal r f == graw).map
            fun r => r.keyVals.getD j 0))
        ∈ epField agg keyFlds.length rows f) ∧
    aggApply .mean [100, 300] = 200 ∧
    epField .mean 1 epMeanRows 0 = [("G", [200])] := by
  intro pat keyFlds agg rows f
  refine ⟨rfl, ?_, ?_, ?_, ?_⟩
  · rw [epField, List.map_map]
    rfl
  · intro graw hg
    exact List.mem_map.mpr ⟨graw, hg, rfl⟩
  · show ((100 : ℚ) + (300 + 0)) / (2 : Nat) = 200
    norm_num
  · have hG : pyTitle "G" = "G" := by decide
    simp +decide only [epField, epMeanRows, epGeogVal, aggApply, List.dedup, List.filter,
      List.map, List.sum, List.foldr, List.getD, List.get?, Option.getD, List.range,
      List.range.loop, hG]
    norm_num

/-- C4 witness: applying the aggregation characterization at the
concrete mean example: the group "G" contributes the row with the
unweighted mean of its `cost`-style values. -/
theorem claim_C4_witness :
    (pyTitle "G", (List.range 1).map fun j =>
        aggApply .mean ((epMeanRows.filter fun r => epGeogVal r 0 == "G").map
          fun r => r.keyVals.getD j 0))
      ∈ epField .mean 1 epMeanRows 0 :=
  (claim_C4 "h_ami_" ["h_ami_2020"] .mean epMeanRows 0).2.2.1 "G" (by decide)

/-- C5: the accumulated wide table holds exactly the union of the
geography names of the merged Metric Result Tables; a geography
present in the accumulator but absent from the next metric keeps its
row padded with nulls (not zeros) in that metric's columns; on the
spec's example, merging tables over {X, Y} and {Y, Z} yields rows for
{X, Y, Z} with nulls in the non-overlapping columns. -/
theorem claim_C5 :
    (∀ ts : List MTable, (∀ t ∈ ts, 0 < t.ncols) → ∀ g,
      (g ∈ geonames (mergeAll ts) ↔ ∃ t ∈ ts, g ∈ geonames t)) ∧
    (∀ a b : MTable, ∀ g v, (g, v) ∈ a.rows → pdEmpty a = false → g ∉ geonames b →
      (g, v ++ List.replicate b.ncols none) ∈ (mergeMetricDataframes a b).rows) ∧
    mergeAll [tXY, tYZ] =
      ⟨2, [("X", [some 1, none]), ("Y", [some 2, some 3]), ("Z", [none, some 4])]⟩ := by
  refine ⟨mergeAll_names, ?_, ?_⟩
  · intro a b g v hgv hne hnb
    rw [mergeMetricDataframes, if_neg (by simp [hne]), mergeOuter_rows]
    apply List.mem_append_left
    have he : (rowMatches b g).isEmpty = true := (rowMatches_nil_iff b g).mpr hnb
    refine List.mem_flatten.mpr ⟨_, List.mem_map.mpr ⟨(g, v), hgv, rfl⟩, ?_⟩
    rw [if_pos he]
    exact List.mem_singleton.mpr rfl
  · rfl

/-- C5 witness: geography Z, present only in the second metric, is in
the merged output of the example tables. -/
theorem claim_C5_witness : "Z" ∈ geonames (mergeAll [tXY, tYZ]) :=
  (claim_C5.1 [tXY, tYZ] (by decide) "Z").mpr ⟨tYZ, by simp, by decide⟩

/-- C7: merging a collection of Metric Result Tables in any order
yields the same set of geography-name rows, and the first table merged
into the empty accumulator seeds it unchanged. -/
theorem claim_C7 :
    (∀ ts₁ ts₂ : List MTable, ts₁.Perm ts₂ → (∀ t ∈ ts₁, 0 < t.ncols) → ∀ g,
      (g ∈ geonames (mergeAll ts₁) ↔ g ∈ geonames (mergeAll ts₂))) ∧
    (∀ t : MTable, mergeMetricDataframes emptyTable t = t) := by
  constructor
  · intro ts₁ ts₂ hperm hts g
    rw [mergeAll_names ts₁ hts g,
      mergeAll_names ts₂ (fun t ht => hts t (hperm.mem_iff.mpr ht)) g]
    constructor
    · rintro ⟨t, ht, hg⟩
      exact ⟨t, hperm.mem_iff.mp ht, hg⟩
    · rintro ⟨t, ht, hg⟩
      exact ⟨t, hperm.mem_iff.mpr ht, hg⟩
  · intro t
    rfl

/-- C7 witness: swapping the two example metric tables leaves the
merged geography-name set unchanged at X. -/
theorem claim_C7_witness :
    "X" ∈ geonames (mergeAll [tXY, tYZ]) ↔ "X" ∈ geonames (mergeAll [tYZ, tXY]) :=
  claim_C7.1 [tXY, tYZ] [tYZ, tXY] (List.Perm.swap tYZ tXY []) (by decide) "X"

end CalcMetrics
